import Mathlib

/-
Verification of the WLMDS loader (src/etl/wlmds_loader.py).

The development shallowly embeds the loader's pure logic:
 - `download_to_temp` (lines 76-97): scheme-based classification of the
   source location, abstracted over the filesystem and the network;
 - `normalise_columns` / `pick_first_present` (lines 121-130) and the six
   alias lists of `parse_wlmds_excel` (lines 143-160): header resolution;
 - the row loop of `parse_wlmds_excel` (lines 169-197): period coercion,
   treatment-code extraction, numeric coercion, identity validation;
 - `upsert_wait_metrics` (lines 225-249): the `INSERT ... ON CONFLICT DO
   UPDATE` reconciliation against the `wait_metrics` table, together with a
   connection/transaction model for its commit-or-rollback behaviour.

Python strings are modelled as lists of characters, spreadsheet cells by the
three coercions the loader applies to them (str, pd.to_datetime, float),
dates as integers (days), and Python floats as rationals plus NaN.
-/

namespace WLMDS

/-- A Python string, modelled as its list of characters. -/
abbrev PyStr := List Char

/-- Whitespace removal from the left end, as in Python `str.strip()`. -/
def lstripWS (s : PyStr) : PyStr := s.dropWhile Char.isWhitespace

/-- Whitespace removal from the right end, as in Python `str.strip()`. -/
def rstripWS (s : PyStr) : PyStr := (s.reverse.dropWhile Char.isWhitespace).reverse

/-- Python `s.strip()`: whitespace removed from both ends. -/
def pyStrip (s : PyStr) : PyStr := rstripWS (lstripWS s)

/-- Python `s.lower()` (per-character lowercasing). -/
def pyLower (s : PyStr) : PyStr := s.map Char.toLower

/-- Python `s.split(sep)[0]`: the part of `s` before the first `sep`
(all of `s` when `sep` does not occur). -/
def splitHead (s : PyStr) (sep : Char) : PyStr := s.takeWhile (fun c => decide (c ≠ sep))

/-- Python `s.isdigit()`: nonempty and all digits (the loader's data is
ASCII, so the ASCII digit test models it). -/
def pyIsdigit (s : PyStr) : Bool := !s.isEmpty && s.all Char.isDigit

/-- A Python float as the loader stores it: a (rational) value or NaN. -/
inductive FloatVal where
  | val (q : Rat)
  | nan
deriving DecidableEq

/-- One spreadsheet cell, given by the coercions the loader applies to it:
`asStr` is Python `str(v)`; `asDate` the result of
`pd.to_datetime(v, errors="coerce")` (`none` models NaT, dates are integer
days); `asFloat` the result of `float(v)` (`none` models an exception). -/
structure Cell where
  asStr : PyStr
  asDate : Option Int
  asFloat : Option Rat
deriving DecidableEq

/-- An input row of the selected sheet, restricted to the six columns that
header resolution picked. -/
structure RawRow where
  ods : Cell
  tfn : Cell
  per : Cell
  med : Cell
  g18 : Cell
  g52 : Cell
deriving DecidableEq

/-- One record/stored row of the `wait_metrics` table (lines 206-216):
identity triple plus the three measurement fields. -/
structure WaitMetricRow where
  ods_code : PyStr
  treatment_code : PyStr
  period_date : Int
  median_weeks : FloatVal
  pct_over_18w : FloatVal
  pct_over_52w : FloatVal
deriving DecidableEq

/-- `_to_float` (lines 184-188): `float(v)`, NaN if it raises. -/
def to_float (c : Cell) : FloatVal :=
  match c.asFloat with
  | some q => .val q
  | none => .nan

/-- Lines 178-180 of `parse_wlmds_excel`: if the (already stripped)
treatment field looks like `"101 - General Surgery"`, keep the part before
the first `-`, stripped; the guard requires that part to be all digits. -/
def extractTreatmentCode (tc : PyStr) : PyStr :=
  if '-' ∈ tc ∧ pyIsdigit (pyStrip (splitHead tc '-')) = true then
    pyStrip (splitHead tc '-')
  else tc

/-- The body of the row loop of `parse_wlmds_excel` (lines 169-197) for one
row. The `dropna` on the period column (lines 170-171) removes exactly the
rows whose period fails to parse, so it is folded into the per-row
function: an unparseable period yields `none`. -/
def parseRow (row : RawRow) : Option WaitMetricRow :=
  match row.per.asDate with
  | none => none
  | some d =>
    let ods_code := pyStrip row.ods.asStr
    let treatment_code := extractTreatmentCode (pyStrip row.tfn.asStr)
    if ods_code = [] ∨ treatment_code = [] then none
    else some
      { ods_code := ods_code
        treatment_code := treatment_code
        period_date := d
        median_weeks := to_float row.med
        pct_over_18w := to_float row.g18
        pct_over_52w := to_float row.g52 }

/-- The record-construction part of `parse_wlmds_excel` (lines 169-199):
rows in source order, invalid rows dropped. -/
def parse_wlmds_excel (rows : List RawRow) : List WaitMetricRow :=
  rows.filterMap parseRow

/-- `_normalise_columns` (lines 121-123): strip then lowercase every
header. -/
def normalise_columns (cols : List PyStr) : List PyStr :=
  cols.map (fun c => pyLower (pyStrip c))

/-- The payload of the `ValueError` raised by `_pick_first_present`
(line 130): the alias list that was tried and the sheet's actual columns. -/
structure SchemaError where
  tried : List PyStr
  actual : List PyStr
deriving DecidableEq

/-- `_pick_first_present` (lines 126-130): first alias present among the
columns, else the schema error. -/
def pick_first_present (cols : List PyStr) (aliases : List PyStr) : Except SchemaError PyStr :=
  match aliases.find? (fun a => decide (a ∈ cols)) with
  | some a => .ok a
  | none => .error { tried := aliases, actual := cols }

/-- The six logical fields of `parse_wlmds_excel`. -/
inductive LogicalField where
  | ods
  | tfn
  | period
  | median
  | gt18
  | gt52
deriving DecidableEq

/-- The alias lists of `parse_wlmds_excel` (lines 143-160), verbatim. -/
def aliasesOf : LogicalField → List PyStr
  | .ods =>
      ["organisation code".toList, "organisation code (ods)".toList,
       "provider code".toList, "org code".toList]
  | .tfn =>
      ["treatment function code".toList, "treatment function".toList,
       "tfc code".toList, "tfc".toList]
  | .period =>
      ["period ending".toList, "period end".toList, "period".toList,
       "month".toList, "reporting period".toList]
  | .median =>
      ["median wait".toList, "median wait (weeks)".toList,
       "median (weeks)".toList, "median weeks".toList]
  | .gt18 =>
      ["% waiting > 18 weeks".toList, "% waiting over 18 weeks".toList,
       "% > 18 weeks".toList, "over 18 weeks (%)".toList]
  | .gt52 =>
      ["% waiting > 52 weeks".toList, "% waiting over 52 weeks".toList,
       "% > 52 weeks".toList, "over 52 weeks (%)".toList]

/-- The characters CPython's `urllib.parse` accepts inside a scheme. -/
def scheme_chars (c : Char) : Bool :=
  c.isAlphanum || decide (c = '+') || decide (c = '-') || decide (c = '.')

/-- `urlparse(src).scheme`: if `src` has a `:` at index > 0 and everything
before the first `:` is made of scheme characters, that prefix lowercased;
otherwise the empty scheme. -/
def urlparse_scheme (s : PyStr) : PyStr :=
  let pre := s.takeWhile (fun c => decide (c ≠ ':'))
  if ':' ∈ s ∧ pre ≠ [] ∧ pre.all scheme_chars = true then pyLower pre else []

/-- The three ways `download_to_temp` can go, at the level the claim talks
about. -/
inductive RetrieveOutcome where
  | remoteFetch
  | localCopy
  | fileNotFound
deriving DecidableEq

/-- `download_to_temp` (lines 76-97), abstracted over the filesystem: the
scheme test at line 83 picks the remote branch; otherwise the source is a
local path, copied if it exists and `FileNotFoundError` otherwise. -/
def download_to_temp (fileExists : PyStr → Bool) (src : PyStr) : RetrieveOutcome :=
  if urlparse_scheme src = "http".toList ∨ urlparse_scheme src = "https".toList then
    .remoteFetch
  else if fileExists src then .localCopy
  else .fileNotFound

/-- The natural key of a `wait_metrics` row (the primary key of the table,
line 214). -/
abbrev WaitKey := PyStr × PyStr × Int

/-- The key projection. -/
def rowKey (r : WaitMetricRow) : WaitKey := (r.ods_code, r.treatment_code, r.period_date)

/-- The `DO UPDATE SET` clause (lines 241-243): overwrite the three
measurement columns of `x` with those of the excluded record `r`. -/
def setMeas (x r : WaitMetricRow) : WaitMetricRow :=
  { x with
    median_weeks := r.median_weeks
    pct_over_18w := r.pct_over_18w
    pct_over_52w := r.pct_over_52w }

/-- Conflict resolution against one stored row: update it when keys match. -/
def replaceRow (r x : WaitMetricRow) : WaitMetricRow :=
  if rowKey x = rowKey r then setMeas x r else x

/-- `INSERT ... ON CONFLICT (…) DO UPDATE` of one row against table `t`:
update the conflicting row when the key is present, append otherwise. -/
def upsertOne (t : List WaitMetricRow) (r : WaitMetricRow) : List WaitMetricRow :=
  if rowKey r ∈ t.map rowKey then t.map (replaceRow r) else t ++ [r]

/-- The row effect of a successful `upsert_wait_metrics` run
(lines 225-249): the batch insert applies the records in sequence order,
each resolving its conflict against the state accumulated so far. This is
the success path only; the duplicate-identity error the database raises
instead for some batches is modelled by `insert_on_conflict` below. -/
def upsert_wait_metrics (t : List WaitMetricRow) (rs : List WaitMetricRow) : List WaitMetricRow :=
  rs.foldl upsertOne t

/-- One multi-row `INSERT ... ON CONFLICT DO UPDATE` statement (lines
236-245) as the database executes it: when two proposed rows of the same
statement carry equal identity triples, Postgres raises its cardinality
violation (the statement may not affect the same row twice), modelled as
`none`; otherwise every row of the statement is applied in order. One
`execute_values` page — up to 100 records, so any batch of at most 100 is
a single statement — is one such statement. -/
def insert_on_conflict (t : List WaitMetricRow) (page : List WaitMetricRow) :
    Option (List WaitMetricRow) :=
  if (page.map rowKey).Nodup then some (page.foldl upsertOne t) else none

/-- A psycopg2 connection: the committed table and the open transaction's
view of it. Closing without committing discards the transaction. -/
structure PgConn where
  committed : List WaitMetricRow
  txn : List WaitMetricRow

/-- `execute_values` (line 245) with failure injection: the statements of
the batch apply to the transaction's view one record at a time; statement
number `idx` raises when `failAt = some idx`, in which case nothing further
runs (`false` = an exception is propagating). -/
def execValues (c : PgConn) (rs : List WaitMetricRow) (failAt : Option Nat) (idx : Nat) :
    PgConn × Bool :=
  match rs with
  | [] => (c, true)
  | r :: rest =>
    if failAt = some idx then (c, false)
    else execValues { c with txn := upsertOne c.txn r } rest failAt (idx + 1)

/-- `upsert_wait_metrics` (lines 225-249) as a run against a live
connection: early return on an empty batch (lines 228-230); otherwise
connect, execute the batch, commit (line 246) — modelled as statement
number `rs.length`, which can also fail — and close in `finally`
(line 249), which discards an uncommitted transaction. Returns the table
visible after the run and whether the run succeeded. -/
def upsert_run (t : List WaitMetricRow) (rs : List WaitMetricRow) (failAt : Option Nat) :
    List WaitMetricRow × Bool :=
  if rs.isEmpty then (t, true)
  else if (execValues { committed := t, txn := t } rs failAt 0).2
      && !(failAt = some rs.length : Bool) then
    ((execValues { committed := t, txn := t } rs failAt 0).1.txn, true)
  else ((execValues { committed := t, txn := t } rs failAt 0).1.committed, false)

/-- The reconciliation run against the error-aware statement semantics,
for a batch that fits one `execute_values` page: on the duplicate-identity
cardinality violation the commit at line 246 never runs and the close in
`finally` (line 249) discards the transaction, so the pre-run table
persists; otherwise the statement's effect is committed. -/
def upsert_run_pg (t : List WaitMetricRow) (rs : List WaitMetricRow) :
    List WaitMetricRow × Bool :=
  if rs.isEmpty then (t, true)
  else
    match insert_on_conflict t rs with
    | some t2 => (t2, true)
    | none => (t, false)

/-- The number of stored rows carrying key `k`. -/
def countKey (t : List WaitMetricRow) (k : WaitKey) : Nat :=
  (t.filter (fun x => decide (rowKey x = k))).length

/-- The last record of `rs` whose key is `k`: the writer that wins the run
for that identity. -/
def lastMatch (rs : List WaitMetricRow) (k : WaitKey) : Option WaitMetricRow :=
  rs.reverse.find? (fun r => decide (rowKey r = k))

/-- The cumulative effect of the run's conflict-resolution updates on one
already-stored row. -/
def patchRow (rs : List WaitMetricRow) (x : WaitMetricRow) : WaitMetricRow :=
  rs.foldl (fun y r => replaceRow r y) x

/-- The rows a run appends: one row per key of `rs` not in `ks` (first
occurrence order), carrying the values of the key's last writer. -/
def freshRows (ks : List WaitKey) (rs : List WaitMetricRow) : List WaitMetricRow :=
  match rs with
  | [] => []
  | r :: rest =>
    if rowKey r ∈ ks then freshRows ks rest
    else patchRow rest r :: freshRows (rowKey r :: ks) rest

/-- A concrete cell, for evaluating the definitions on sample data. -/
def mkCell (s : String) (d : Option Int) (q : Option Rat) : Cell :=
  { asStr := s.toList, asDate := d, asFloat := q }

/-- A concrete input row, for evaluating the definitions on sample data. -/
def mkRow (ods tfn : String) (d : Option Int) (med g18 g52 : Option Rat) : RawRow :=
  { ods := mkCell ods none none
    tfn := mkCell tfn none none
    per := mkCell "period" d none
    med := mkCell "median" none med
    g18 := mkCell "g18" none g18
    g52 := mkCell "g52" none g52 }

/-- A concrete record/stored row, for evaluating the definitions. -/
def mkRec (ods tfn : String) (d : Int) (m p18 p52 : FloatVal) : WaitMetricRow :=
  { ods_code := ods.toList, treatment_code := tfn.toList, period_date := d
    median_weeks := m, pct_over_18w := p18, pct_over_52w := p52 }

/-- The spec's data-model constraint on a produced record's median: a
non-negative value or NaN. -/
def median_nonneg_or_nan (r : WaitMetricRow) : Prop :=
  match r.median_weeks with
  | .val q => 0 ≤ q
  | .nan => True

instance (r : WaitMetricRow) : Decidable (median_nonneg_or_nan r) := by
  unfold median_nonneg_or_nan
  match r.median_weeks with
  | .val q => exact inferInstance
  | .nan => exact inferInstance

theorem isDigit_not_ws {c : Char} (h : c.isDigit = true) : c.isWhitespace = false := by
  revert h
  simp [Char.isDigit, Char.isWhitespace]
  intro h1 h2
  refine ⟨⟨⟨?_, ?_⟩, ?_⟩, ?_⟩ <;> rintro rfl <;> exact absurd h1 (by decide)

theorem isDigit_ne_dash {c : Char} (h : c.isDigit = true) : c ≠ '-' := by
  rintro rfl
  exact absurd h (by decide)

theorem isWS_ne_dash {c : Char} (h : c.isWhitespace = true) : c ≠ '-' := by
  rintro rfl
  exact absurd h (by decide)

theorem extractTreatmentCode_nil : extractTreatmentCode [] = [] := by
  simp [extractTreatmentCode]

/-- Claim C10: the retriever classifies its source solely by URL scheme:
exactly the parsed schemes http and https take the remote-fetch branch; any
other location string (an ftp URI included) is treated as a local
filesystem path, copied when the file exists and failing with the
not-found error otherwise, never attempting a remote fetch. -/
theorem retriever_scheme_classification (fileExists : PyStr → Bool) (src : PyStr) :
    (download_to_temp fileExists src = .remoteFetch ↔
      (urlparse_scheme src = "http".toList ∨ urlparse_scheme src = "https".toList)) ∧
    ((¬ (urlparse_scheme src = "http".toList ∨ urlparse_scheme src = "https".toList)) →
      fileExists src = false → download_to_temp fileExists src = .fileNotFound) ∧
    ((¬ (urlparse_scheme src = "http".toList ∨ urlparse_scheme src = "https".toList)) →
      fileExists src = true → download_to_temp fileExists src = .localCopy) := by
  unfold download_to_temp
  by_cases h : urlparse_scheme src = "http".toList ∨ urlparse_scheme src = "https".toList
  · rw [if_pos h]
    exact ⟨⟨fun _ => h, fun _ => rfl⟩, fun hn => absurd h hn, fun hn => absurd h hn⟩
  · rw [if_neg h]
    by_cases hf : fileExists src = true
    · rw [if_pos hf]
      exact ⟨⟨fun hc => RetrieveOutcome.noConfusion hc, fun hc => absurd hc h⟩,
        fun _ hff => absurd (hf.symm.trans hff) (by decide),
        fun _ _ => rfl⟩
    · rw [if_neg hf]
      exact ⟨⟨fun hc => RetrieveOutcome.noConfusion hc, fun hc => absurd hc h⟩,
        fun _ _ => rfl,
        fun _ htt => absurd htt hf⟩

/-- Witness for C10: an ftp URI whose path names no existing file is
reported as a missing local file, not fetched remotely. -/
theorem retriever_scheme_classification_witness :
    download_to_temp (fun _ => false) ("ftp://host/data.xlsx".toList) = .fileNotFound :=
  (retriever_scheme_classification (fun _ => false) ("ftp://host/data.xlsx".toList)).2.1
    (by decide) rfl

/-- Claim C7: a row whose provider code or treatment code is empty or
whitespace-only after trimming is excluded from the output, whatever its
other fields hold: no record is produced for it. -/
theorem identity_validation_drops_row (row : RawRow)
    (h : pyStrip row.ods.asStr = [] ∨ pyStrip row.tfn.asStr = []) :
    parseRow row = none := by
  unfold parseRow
  cases hper : row.per.asDate with
  | none => rfl
  | some d =>
    have hcond : pyStrip row.ods.asStr = [] ∨
        extractTreatmentCode (pyStrip row.tfn.asStr) = [] := by
      rcases h with h | h
      · exact Or.inl h
      · right
        rw [h, extractTreatmentCode_nil]
    simp [hcond]

/-- Witness for C7: a row with a whitespace-only provider code and
otherwise fully valid fields produces no record. -/
theorem identity_validation_drops_row_witness :
    parseRow (mkRow "   " "101" (some 20000) (some 5) (some 10) (some 1)) = none :=
  identity_validation_drops_row (mkRow "   " "101" (some 20000) (some 5) (some 10) (some 1))
    (Or.inl (by decide))

/-- Claim C6: an unparseable period excludes the row without aborting the
run (the surrounding rows still parse); an unparseable median or
percentage keeps the row, with NaN substituted in that field, whenever the
identity fields are valid. -/
theorem row_level_recovery (row : RawRow) :
    (row.per.asDate = none →
      parseRow row = none ∧
      ∀ pre post, parse_wlmds_excel (pre ++ row :: post) =
        parse_wlmds_excel pre ++ parse_wlmds_excel post) ∧
    (∀ d, row.per.asDate = some d →
      pyStrip row.ods.asStr ≠ [] →
      extractTreatmentCode (pyStrip row.tfn.asStr) ≠ [] →
      ∃ rec, parseRow row = some rec ∧
        (row.med.asFloat = none → rec.median_weeks = .nan) ∧
        (row.g18.asFloat = none → rec.pct_over_18w = .nan) ∧
        (row.g52.asFloat = none → rec.pct_over_52w = .nan)) := by
  constructor
  · intro hper
    have hnone : parseRow row = none := by
      unfold parseRow
      rw [hper]
    refine ⟨hnone, fun pre post => ?_⟩
    unfold parse_wlmds_excel
    simp [List.filterMap_append, List.filterMap_cons, hnone]
  · intro d hper hods htfn
    have hcond : ¬ (pyStrip row.ods.asStr = [] ∨
        extractTreatmentCode (pyStrip row.tfn.asStr) = []) := by
      rintro (h | h)
      exacts [hods h, htfn h]
    refine ⟨{ ods_code := pyStrip row.ods.asStr
              treatment_code := extractTreatmentCode (pyStrip row.tfn.asStr)
              period_date := d
              median_weeks := to_float row.med
              pct_over_18w := to_float row.g18
              pct_over_52w := to_float row.g52 }, ?_, ?_, ?_, ?_⟩
    · unfold parseRow
      rw [hper]
      simp [hcond]
    · intro h
      simp [to_float, h]
    · intro h
      simp [to_float, h]
    · intro h
      simp [to_float, h]

/-- Witness for C6: a row with a valid identity, unparseable median and a
parseable period is kept with a NaN median. -/
theorem row_level_recovery_witness :
    ∃ rec, parseRow (mkRow "P1" "101" (some 20000) none (some 10) (some 1)) = some rec ∧
      (((mkRow "P1" "101" (some 20000) none (some 10) (some 1)).med.asFloat = none) →
        rec.median_weeks = .nan) ∧
      (((mkRow "P1" "101" (some 20000) none (some 10) (some 1)).g18.asFloat = none) →
        rec.pct_over_18w = .nan) ∧
      (((mkRow "P1" "101" (some 20000) none (some 10) (some 1)).g52.asFloat = none) →
        rec.pct_over_52w = .nan) :=
  (row_level_recovery (mkRow "P1" "101" (some 20000) none (some 10) (some 1))).2 20000
    rfl (by decide) (by decide)

/-- Claim C9 counterexample: a row whose median cell parses to the float -1
produces a record with a negative finite median_weeks — the Row Normalizer
applies no sign check, so the claimed invariant fails on this input. -/
theorem negative_median_counterexample :
    parse_wlmds_excel [mkRow "P1" "101" (some 20000) (some (-1)) (some 10) (some 1)] =
      [mkRec "P1" "101" 20000 (.val (-1)) (.val 10) (.val 1)] ∧
    ¬ median_nonneg_or_nan (mkRec "P1" "101" 20000 (.val (-1)) (.val 10) (.val 1)) := by
  constructor
  · decide
  · decide

/-- Claim C9 (amended): a produced record's median_weeks is exactly the
float parse of the source cell — NaN when unparseable, the parsed value
otherwise — so it is non-negative whenever the source value is; the
normalizer performs no sign check of its own. -/
theorem median_is_parsed_value (row : RawRow) (rec : WaitMetricRow)
    (h : parseRow row = some rec) :
    rec.median_weeks = to_float row.med ∧
    (row.med.asFloat = none → rec.median_weeks = .nan) ∧
    (∀ q, row.med.asFloat = some q → rec.median_weeks = .val q) ∧
    (∀ q, row.med.asFloat = some q → 0 ≤ q → median_nonneg_or_nan rec) := by
  have hmed : rec.median_weeks = to_float row.med := by
    unfold parseRow at h
    cases hper : row.per.asDate with
    | none =>
      rw [hper] at h
      cases h
    | some d =>
      rw [hper] at h
      by_cases hcond : pyStrip row.ods.asStr = [] ∨
          extractTreatmentCode (pyStrip row.tfn.asStr) = []
      · simp [hcond] at h
      · simp [hcond] at h
        rw [← h]
  refine ⟨hmed, fun hn => ?_, fun q hq => ?_, fun q hq h0 => ?_⟩
  · rw [hmed]
    simp [to_float, hn]
  · rw [hmed]
    simp [to_float, hq]
  · have hv : rec.median_weeks = .val q := by
      rw [hmed]
      simp [to_float, hq]
    simp [median_nonneg_or_nan, hv]
    exact h0

/-- Witness for the amended C9: a record built from a parseable
non-negative median carries exactly that parsed value. -/
theorem median_is_parsed_value_witness :
    (mkRec "P1" "101" 20000 (.val 5) (.val 10) (.val 1)).median_weeks =
      to_float (mkRow "P1" "101" (some 20000) (some 5) (some 10) (some 1)).med :=
  (median_is_parsed_value (mkRow "P1" "101" (some 20000) (some 5) (some 10) (some 1))
    (mkRec "P1" "101" 20000 (.val 5) (.val 10) (.val 1)) (by decide)).1

theorem takeWhile_append_all {p : Char → Bool} {l r : List Char}
    (h : ∀ x ∈ l, p x = true) : (l ++ r).takeWhile p = l ++ r.takeWhile p := by
  induction l with
  | nil => simp
  | cons a as ih =>
    simp only [List.cons_append, List.takeWhile_cons, h a (by simp)]
    rw [ih (fun x hx => h x (by simp [hx]))]
    simp

theorem dropWhile_append_all {p : Char → Bool} {l r : List Char}
    (h : ∀ x ∈ l, p x = true) : (l ++ r).dropWhile p = r.dropWhile p := by
  induction l with
  | nil => simp
  | cons a as ih =>
    simp only [List.cons_append, List.dropWhile_cons, h a (by simp)]
    exact ih (fun x hx => h x (by simp [hx]))

theorem dropWhile_cons_of_false {p : Char → Bool} {c : Char} {t : List Char}
    (h : p c = false) : (c :: t).dropWhile p = c :: t := by
  simp [List.dropWhile_cons, h]

theorem lstripWS_head_not_ws {s : PyStr} {c : Char} {t : PyStr}
    (h : lstripWS s = c :: t) : c.isWhitespace = false := by
  induction s with
  | nil => cases h
  | cons a as ih =>
    unfold lstripWS at h ih
    rw [List.dropWhile_cons] at h
    by_cases hw : a.isWhitespace = true
    · rw [if_pos hw] at h
      exact ih h
    · rw [if_neg hw] at h
      injection h with h1 _
      rw [← h1]
      simp at hw
      simp [hw]

theorem rstripWS_prefix (s : PyStr) : rstripWS s <+: s := by
  unfold rstripWS
  rw [← List.reverse_suffix, List.reverse_reverse]
  exact List.dropWhile_suffix Char.isWhitespace

theorem rstripWS_structure (s : PyStr) :
    ∃ w, s = rstripWS s ++ w ∧ ∀ c ∈ w, c.isWhitespace = true := by
  refine ⟨(s.reverse.takeWhile Char.isWhitespace).reverse, ?_, ?_⟩
  · unfold rstripWS
    conv_lhs => rw [← List.reverse_reverse s]
    rw [← List.reverse_append]
    rw [List.takeWhile_append_dropWhile]
  · intro c hc
    rw [List.mem_reverse] at hc
    exact List.mem_takeWhile_imp hc

theorem pyStrip_head_not_ws {s : PyStr} {c : Char} {t : PyStr}
    (h : pyStrip s = c :: t) : c.isWhitespace = false := by
  unfold pyStrip at h
  obtain ⟨u, hu⟩ := rstripWS_prefix (lstripWS s)
  rw [h] at hu
  exact lstripWS_head_not_ws hu.symm

theorem pyStrip_of_digits_ws {d w : PyStr} (hd : d ≠ [])
    (hdig : ∀ c ∈ d, c.isDigit = true) (hws : ∀ c ∈ w, c.isWhitespace = true) :
    pyStrip (d ++ w) = d := by
  obtain ⟨c, t, rfl⟩ := List.exists_cons_of_ne_nil hd
  have hc : c.isDigit = true := hdig c (by simp)
  unfold pyStrip lstripWS rstripWS
  rw [List.cons_append, dropWhile_cons_of_false (isDigit_not_ws hc)]
  show (List.dropWhile Char.isWhitespace ((c :: t) ++ w).reverse).reverse = c :: t
  rw [List.reverse_append]
  rw [dropWhile_append_all (by
    intro x hx
    rw [List.mem_reverse] at hx
    exact hws x hx)]
  have hrev : ((c :: t).reverse.dropWhile Char.isWhitespace) = (c :: t).reverse := by
    cases hr : (c :: t).reverse with
    | nil => simp at hr
    | cons b bs =>
      have hb : b ∈ (c :: t).reverse := by
        rw [hr]
        simp
      rw [List.mem_reverse] at hb
      exact dropWhile_cons_of_false (isDigit_not_ws (hdig b hb))
  rw [hrev, List.reverse_reverse]

theorem splitHead_decomp {s : PyStr} {sep : Char} (h : sep ∈ s) :
    ∃ rest, s = splitHead s sep ++ sep :: rest := by
  induction s with
  | nil => cases h
  | cons a t ih =>
    by_cases ha : a = sep
    · subst ha
      refine ⟨t, ?_⟩
      unfold splitHead
      rw [List.takeWhile_cons]
      simp
    · have ht : sep ∈ t := by
        cases List.mem_cons.mp h with
        | inl h1 => exact absurd h1.symm ha
        | inr h2 => exact h2
      obtain ⟨rest, hrest⟩ := ih ht
      refine ⟨rest, ?_⟩
      unfold splitHead at hrest ⊢
      rw [List.takeWhile_cons]
      simp only [decide_eq_true_eq]
      rw [if_pos (by simp [ha])]
      rw [List.cons_append, ← hrest]

theorem splitHead_of_decomp {d w rest : PyStr}
    (hdig : ∀ c ∈ d, c.isDigit = true) (hws : ∀ c ∈ w, c.isWhitespace = true) :
    splitHead (d ++ w ++ '-' :: rest) '-' = d ++ w := by
  unfold splitHead
  rw [List.append_assoc]
  rw [takeWhile_append_all (p := fun c => decide (c ≠ '-')) (by
    intro x hx
    simp [isDigit_ne_dash (hdig x hx)])]
  rw [takeWhile_append_all (p := fun c => decide (c ≠ '-')) (by
    intro x hx
    simp [isWS_ne_dash (hws x hx)])]
  rw [List.takeWhile_cons]
  simp

theorem cond_implies_form {tc : PyStr}
    (hhead : ∀ c t, tc = c :: t → c.isWhitespace = false)
    (hmem : '-' ∈ tc)
    (hdigit : pyIsdigit (pyStrip (splitHead tc '-')) = true) :
    ∃ d w rest, tc = d ++ w ++ '-' :: rest ∧ d ≠ [] ∧
      (∀ c ∈ d, c.isDigit = true) ∧ (∀ c ∈ w, c.isWhitespace = true) := by
  obtain ⟨rest, hrest⟩ := splitHead_decomp hmem
  have hne : pyStrip (splitHead tc '-') ≠ [] := by
    intro h0
    rw [h0] at hdigit
    exact absurd hdigit (by decide)
  have hdigs : ∀ c ∈ pyStrip (splitHead tc '-'), c.isDigit = true := by
    unfold pyIsdigit at hdigit
    rw [Bool.and_eq_true, List.all_eq_true] at hdigit
    exact hdigit.2
  have hsegne : splitHead tc '-' ≠ [] := by
    intro h0
    rw [h0] at hne
    exact hne rfl
  have hlstrip : lstripWS (splitHead tc '-') = splitHead tc '-' := by
    cases hseg : splitHead tc '-' with
    | nil => exact absurd hseg hsegne
    | cons c t =>
      have hcws : c.isWhitespace = false := by
        apply hhead c (t ++ '-' :: rest)
        rw [hrest, hseg]
        simp
      exact dropWhile_cons_of_false hcws
  have hps : pyStrip (splitHead tc '-') = rstripWS (splitHead tc '-') := by
    unfold pyStrip
    rw [hlstrip]
  obtain ⟨w, hw, hws⟩ := rstripWS_structure (splitHead tc '-')
  refine ⟨pyStrip (splitHead tc '-'), w, rest, ?_, hne, hdigs, hws⟩
  calc tc = splitHead tc '-' ++ '-' :: rest := hrest
    _ = (pyStrip (splitHead tc '-') ++ w) ++ '-' :: rest := by rw [hps, ← hw]
    _ = pyStrip (splitHead tc '-') ++ w ++ '-' :: rest := by rw [List.append_assoc]

/-- Claim C8: on the trimmed raw treatment field, extraction keeps exactly
the leading digit run when the field takes the form digits, optional
whitespace, a dash, then the rest (the form written `101 - General
Surgery` in the spec), and otherwise leaves the trimmed raw value
unchanged. -/
theorem treatment_code_extraction (v : PyStr) :
    (∀ d w rest, pyStrip v = d ++ w ++ '-' :: rest → d ≠ [] →
      (∀ c ∈ d, c.isDigit = true) → (∀ c ∈ w, c.isWhitespace = true) →
      extractTreatmentCode (pyStrip v) = d) ∧
    ((¬ ∃ d w rest, pyStrip v = d ++ w ++ '-' :: rest ∧ d ≠ [] ∧
      (∀ c ∈ d, c.isDigit = true) ∧ (∀ c ∈ w, c.isWhitespace = true)) →
      extractTreatmentCode (pyStrip v) = pyStrip v) := by
  constructor
  · intro d w rest hdec hd hdig hws
    have hsplit : splitHead (pyStrip v) '-' = d ++ w := by
      rw [hdec]
      exact splitHead_of_decomp hdig hws
    have hstrip : pyStrip (d ++ w) = d := pyStrip_of_digits_ws hd hdig hws
    have hmem : '-' ∈ pyStrip v := by
      rw [hdec]
      simp
    have hdigit : pyIsdigit d = true := by
      unfold pyIsdigit
      rw [Bool.and_eq_true, List.all_eq_true]
      refine ⟨?_, hdig⟩
      simp [List.isEmpty_iff, hd]
    unfold extractTreatmentCode
    rw [if_pos ⟨hmem, by rw [hsplit, hstrip]; exact hdigit⟩]
    rw [hsplit, hstrip]
  · intro hno
    unfold extractTreatmentCode
    split
    · case isTrue hc =>
      exact absurd (cond_implies_form (fun c t ht => pyStrip_head_not_ws ht) hc.1 hc.2) hno
    · rfl

/-- Witness for C8: the field `101 - General Surgery` yields code `101`;
the field `ENT` (which fits no digit-dash decomposition, as its extraction
shows) stays `ENT`. -/
theorem treatment_code_extraction_witness :
    extractTreatmentCode (pyStrip ("101 - General Surgery".toList)) = "101".toList ∧
    extractTreatmentCode (pyStrip ("ENT".toList)) = "ENT".toList := by
  constructor
  · exact (treatment_code_extraction ("101 - General Surgery".toList)).1
      ("101".toList) (" ".toList) (" General Surgery".toList)
      (by decide) (by decide) (by decide) (by decide)
  · decide

theorem find?_eq_some_first {α : Type _} {p : α → Bool} {l : List α} {a : α}
    (h : l.find? p = some a) :
    ∃ l₁ l₂, l = l₁ ++ a :: l₂ ∧ p a = true ∧ ∀ x ∈ l₁, p x = false := by
  induction l with
  | nil => cases h
  | cons b t ih =>
    by_cases hb : p b = true
    · rw [List.find?_cons_of_pos _ hb] at h
      injection h with h1
      subst h1
      exact ⟨[], t, rfl, hb, by simp⟩
    · rw [List.find?_cons_of_neg _ (by simpa using hb)] at h
      obtain ⟨l₁, l₂, heq, hpa, hall⟩ := ih h
      refine ⟨b :: l₁, l₂, by rw [heq, List.cons_append], hpa, ?_⟩
      intro x hx
      rcases List.mem_cons.mp hx with rfl | hx2
      · simpa using hb
      · exact hall x hx2

/-- Claim C5: after lower-casing and trimming every header, header
resolution returns the first alias of the field's fixed ordered list that
is present among the headers; when none is present it fails with the
schema error carrying exactly the attempted alias list and the actual
columns — and, the six alias lists being pairwise distinct, that error
identifies the unresolved logical field. -/
theorem header_resolution (headers : List PyStr) (f : LogicalField) :
    (∀ a, pick_first_present (normalise_columns headers) (aliasesOf f) = .ok a →
      a ∈ normalise_columns headers ∧
      ∃ pre post, aliasesOf f = pre ++ a :: post ∧
        ∀ b ∈ pre, b ∉ normalise_columns headers) ∧
    (∀ e, pick_first_present (normalise_columns headers) (aliasesOf f) = .error e →
      (∀ a ∈ aliasesOf f, a ∉ normalise_columns headers) ∧
      e.tried = aliasesOf f ∧ e.actual = normalise_columns headers) ∧
    (∀ g, aliasesOf f = aliasesOf g → f = g) := by
  refine ⟨?_, ?_, ?_⟩
  · intro a ha
    unfold pick_first_present at ha
    cases hf : (aliasesOf f).find? (fun x => decide (x ∈ normalise_columns headers)) with
    | none =>
      rw [hf] at ha
      cases ha
    | some b =>
      rw [hf] at ha
      injection ha with hab
      subst hab
      obtain ⟨l₁, l₂, heq, hpa, hall⟩ := find?_eq_some_first hf
      refine ⟨by simpa using hpa, l₁, l₂, heq, ?_⟩
      intro x hx
      simpa using hall x hx
  · intro e he
    unfold pick_first_present at he
    cases hf : (aliasesOf f).find? (fun x => decide (x ∈ normalise_columns headers)) with
    | some b =>
      rw [hf] at he
      cases he
    | none =>
      rw [hf] at he
      injection he with h1
      rw [List.find?_eq_none] at hf
      refine ⟨?_, ?_, ?_⟩
      · intro a ha hmem
        have := hf a ha
        simp at this
        exact this hmem
      · rw [← h1]
      · rw [← h1]
  · intro g
    cases f <;> cases g <;> decide

/-- Witness for C5: a sheet whose raw headers are ` Provider Code ` and
`Period` resolves the provider field to the alias `provider code`, the
first present one. -/
theorem header_resolution_witness :
    ("provider code".toList ∈ normalise_columns [" Provider Code ".toList, "Period".toList]) ∧
    ∃ pre post, aliasesOf .ods = pre ++ ("provider code".toList) :: post ∧
      ∀ b ∈ pre, b ∉ normalise_columns [" Provider Code ".toList, "Period".toList] :=
  (header_resolution [" Provider Code ".toList, "Period".toList] .ods).1
    ("provider code".toList) rfl

theorem rowKey_setMeas (x r : WaitMetricRow) : rowKey (setMeas x r) = rowKey x := rfl

theorem rowKey_replaceRow (r x : WaitMetricRow) : rowKey (replaceRow r x) = rowKey x := by
  unfold replaceRow
  split <;> rfl

theorem patchRow_nil (x : WaitMetricRow) : patchRow [] x = x := rfl

theorem patchRow_cons (r : WaitMetricRow) (rs : List WaitMetricRow) (x : WaitMetricRow) :
    patchRow (r :: rs) x = patchRow rs (replaceRow r x) := rfl

theorem rowKey_patchRow (rs : List WaitMetricRow) (x : WaitMetricRow) :
    rowKey (patchRow rs x) = rowKey x := by
  induction rs generalizing x with
  | nil => rfl
  | cons r rest ih =>
    rw [patchRow_cons, ih, rowKey_replaceRow]

theorem setMeas_setMeas (x r s : WaitMetricRow) : setMeas (setMeas x r) s = setMeas x s := rfl

theorem setMeas_self (x : WaitMetricRow) : setMeas x x = x := rfl

theorem lastMatch_nil (k : WaitKey) : lastMatch [] k = none := rfl

theorem lastMatch_cons (r : WaitMetricRow) (rs : List WaitMetricRow) (k : WaitKey) :
    lastMatch (r :: rs) k = (lastMatch rs k).or (if rowKey r = k then some r else none) := by
  unfold lastMatch
  rw [List.reverse_cons, List.find?_append]
  congr 1
  by_cases h : rowKey r = k <;> simp [List.find?_cons, h]

theorem patchRow_spec (rs : List WaitMetricRow) (x : WaitMetricRow) :
    patchRow rs x = match lastMatch rs (rowKey x) with
      | some r => setMeas x r
      | none => x := by
  induction rs generalizing x with
  | nil => rfl
  | cons r rest ih =>
    rw [patchRow_cons, ih (replaceRow r x), rowKey_replaceRow, lastMatch_cons]
    cases h : lastMatch rest (rowKey x) with
    | some s =>
      simp only [Option.or]
      unfold replaceRow
      split <;> rfl
    | none =>
      simp only [Option.or]
      by_cases hrk : rowKey r = rowKey x
      · rw [if_pos hrk]
        unfold replaceRow
        rw [if_pos hrk.symm]
      · rw [if_neg hrk]
        unfold replaceRow
        rw [if_neg (fun hh => hrk hh.symm)]

theorem patchRow_of_lastMatch_some {rs : List WaitMetricRow} {x r : WaitMetricRow}
    (h : lastMatch rs (rowKey x) = some r) : patchRow rs x = setMeas x r := by
  rw [patchRow_spec, h]

theorem patchRow_of_lastMatch_none {rs : List WaitMetricRow} {x : WaitMetricRow}
    (h : lastMatch rs (rowKey x) = none) : patchRow rs x = x := by
  rw [patchRow_spec, h]

theorem lastMatch_none_of_no_match {rs : List WaitMetricRow} {k : WaitKey}
    (h : ∀ r ∈ rs, rowKey r ≠ k) : lastMatch rs k = none := by
  unfold lastMatch
  rw [List.find?_eq_none]
  intro r hr
  simp only [decide_eq_true_eq]
  exact h r (List.mem_reverse.mp hr)

theorem patchRow_of_no_match {rs : List WaitMetricRow} {x : WaitMetricRow}
    (h : ∀ r ∈ rs, rowKey r ≠ rowKey x) : patchRow rs x = x :=
  patchRow_of_lastMatch_none (lastMatch_none_of_no_match h)

theorem patchRow_idem (rs : List WaitMetricRow) (x : WaitMetricRow) :
    patchRow rs (patchRow rs x) = patchRow rs x := by
  cases h : lastMatch rs (rowKey x) with
  | some r =>
    rw [patchRow_of_lastMatch_some h]
    have h2 : lastMatch rs (rowKey (setMeas x r)) = some r := by
      rw [rowKey_setMeas]
      exact h
    rw [patchRow_of_lastMatch_some h2, setMeas_setMeas]
  | none =>
    rw [patchRow_of_lastMatch_none h, patchRow_of_lastMatch_none h]

theorem upsert_nil (t : List WaitMetricRow) : upsert_wait_metrics t [] = t := rfl

theorem upsert_cons (t : List WaitMetricRow) (r : WaitMetricRow) (rs : List WaitMetricRow) :
    upsert_wait_metrics t (r :: rs) = upsert_wait_metrics (upsertOne t r) rs := rfl

theorem upsertOne_of_mem {t : List WaitMetricRow} {r : WaitMetricRow}
    (h : rowKey r ∈ t.map rowKey) : upsertOne t r = t.map (replaceRow r) := by
  unfold upsertOne
  rw [if_pos h]

theorem upsertOne_of_not_mem {t : List WaitMetricRow} {r : WaitMetricRow}
    (h : rowKey r ∉ t.map rowKey) : upsertOne t r = t ++ [r] := by
  unfold upsertOne
  rw [if_neg h]

theorem keys_map_replace (t : List WaitMetricRow) (r : WaitMetricRow) :
    (t.map (replaceRow r)).map rowKey = t.map rowKey := by
  rw [List.map_map]
  exact List.map_congr_left (fun x _ => rowKey_replaceRow r x)

theorem freshRows_nil_eq (ks : List WaitKey) : freshRows ks [] = [] := rfl

theorem freshRows_cons (ks : List WaitKey) (r : WaitMetricRow) (rest : List WaitMetricRow) :
    freshRows ks (r :: rest) = if rowKey r ∈ ks then freshRows ks rest
      else patchRow rest r :: freshRows (rowKey r :: ks) rest := rfl

theorem freshRows_congr {ks₁ ks₂ : List WaitKey} (rs : List WaitMetricRow)
    (h : ∀ k, k ∈ ks₁ ↔ k ∈ ks₂) : freshRows ks₁ rs = freshRows ks₂ rs := by
  induction rs generalizing ks₁ ks₂ with
  | nil => rfl
  | cons r rest ih =>
    rw [freshRows_cons, freshRows_cons]
    by_cases hk : rowKey r ∈ ks₁
    · rw [if_pos hk, if_pos ((h _).mp hk)]
      exact ih h
    · rw [if_neg hk, if_neg (fun hh => hk ((h _).mpr hh))]
      congr 1
      exact ih (fun k => by simp [List.mem_cons, h k])

theorem freshRows_key_notin {ks : List WaitKey} {rs : List WaitMetricRow} {x : WaitMetricRow}
    (hx : x ∈ freshRows ks rs) : rowKey x ∉ ks := by
  induction rs generalizing ks with
  | nil => cases hx
  | cons r rest ih =>
    rw [freshRows_cons] at hx
    by_cases hk : rowKey r ∈ ks
    · rw [if_pos hk] at hx
      exact ih hx
    · rw [if_neg hk] at hx
      rcases List.mem_cons.mp hx with h1 | h2
      · rw [h1, rowKey_patchRow]
        exact hk
      · intro hmem
        exact (ih h2) (List.mem_cons.mpr (Or.inr hmem))

theorem freshRows_keys_cover {ks : List WaitKey} {rs : List WaitMetricRow} :
    ∀ r ∈ rs, rowKey r ∈ ks ∨ rowKey r ∈ (freshRows ks rs).map rowKey := by
  induction rs generalizing ks with
  | nil =>
    intro r hr
    cases hr
  | cons r0 rest ih =>
    intro r hr
    rw [freshRows_cons]
    by_cases hk : rowKey r0 ∈ ks
    · rw [if_pos hk]
      rcases List.mem_cons.mp hr with rfl | h2
      · exact Or.inl hk
      · exact ih r h2
    · rw [if_neg hk]
      rcases List.mem_cons.mp hr with rfl | h2
      · right
        rw [List.map_cons, rowKey_patchRow]
        exact List.mem_cons.mpr (Or.inl rfl)
      · rcases @ih (rowKey r0 :: ks) r h2 with h3 | h3
        · rcases List.mem_cons.mp h3 with h4 | h5
          · right
            rw [List.map_cons, rowKey_patchRow, h4]
            exact List.mem_cons.mpr (Or.inl rfl)
          · exact Or.inl h5
        · right
          rw [List.map_cons]
          exact List.mem_cons.mpr (Or.inr h3)

theorem freshRows_nil_of_covered {ks : List WaitKey} {rs : List WaitMetricRow}
    (h : ∀ r ∈ rs, rowKey r ∈ ks) : freshRows ks rs = [] := by
  induction rs generalizing ks with
  | nil => rfl
  | cons r rest ih =>
    rw [freshRows_cons, if_pos (h r (by simp))]
    exact ih (fun x hx => h x (by simp [hx]))

theorem freshRows_fixed {ks : List WaitKey} {rs : List WaitMetricRow} {x : WaitMetricRow}
    (hx : x ∈ freshRows ks rs) : patchRow rs x = x := by
  induction rs generalizing ks x with
  | nil => cases hx
  | cons r rest ih =>
    rw [freshRows_cons] at hx
    by_cases hk : rowKey r ∈ ks
    · rw [if_pos hk] at hx
      have hne : rowKey x ≠ rowKey r := by
        intro he
        exact (freshRows_key_notin hx) (he ▸ hk)
      rw [patchRow_cons]
      unfold replaceRow
      rw [if_neg hne]
      exact ih hx
    · rw [if_neg hk] at hx
      rcases List.mem_cons.mp hx with h1 | h2
      · subst h1
        rw [patchRow_cons]
        have hkey : rowKey (patchRow rest r) = rowKey r := rowKey_patchRow rest r
        unfold replaceRow
        rw [if_pos hkey]
        cases hlm : lastMatch rest (rowKey r) with
        | some s =>
          have e1 : patchRow rest r = setMeas r s := patchRow_of_lastMatch_some hlm
          have h2 : lastMatch rest (rowKey (setMeas (patchRow rest r) r)) = some s := by
            rw [rowKey_setMeas, hkey]
            exact hlm
          rw [patchRow_of_lastMatch_some h2, setMeas_setMeas, e1, setMeas_setMeas]
        | none =>
          have e1 : patchRow rest r = r := patchRow_of_lastMatch_none hlm
          have h2 : lastMatch rest (rowKey (setMeas (patchRow rest r) r)) = none := by
            rw [rowKey_setMeas, hkey]
            exact hlm
          rw [patchRow_of_lastMatch_none h2, e1, setMeas_self]
      · have hnot := freshRows_key_notin h2
        have hne : rowKey x ≠ rowKey r := fun he => hnot (List.mem_cons.mpr (Or.inl he))
        rw [patchRow_cons]
        unfold replaceRow
        rw [if_neg hne]
        exact ih h2

theorem upsert_normal_form (rs : List WaitMetricRow) (t : List WaitMetricRow) :
    upsert_wait_metrics t rs = t.map (patchRow rs) ++ freshRows (t.map rowKey) rs := by
  induction rs generalizing t with
  | nil =>
    rw [upsert_nil, freshRows_nil_eq, List.append_nil]
    exact ((List.map_congr_left (fun x _ => patchRow_nil x)).trans (List.map_id t)).symm
  | cons r rest ih =>
    rw [upsert_cons, ih (upsertOne t r), freshRows_cons]
    by_cases hk : rowKey r ∈ t.map rowKey
    · rw [if_pos hk, upsertOne_of_mem hk, keys_map_replace, List.map_map]
      congr 1
    · rw [if_neg hk, upsertOne_of_not_mem hk, List.map_append, List.map_append,
        List.map_singleton, List.map_singleton]
      have hkeys : freshRows ((t.map rowKey) ++ [rowKey r]) rest =
          freshRows (rowKey r :: t.map rowKey) rest :=
        freshRows_congr rest (fun k => by simp [List.mem_append, List.mem_cons, or_comm])
      rw [hkeys]
      have hleft : t.map (patchRow rest) = t.map (patchRow (r :: rest)) :=
        List.map_congr_left (fun x hx => by
          rw [patchRow_cons]
          have hne : rowKey x ≠ rowKey r := by
            intro he
            exact hk (he ▸ List.mem_map_of_mem rowKey hx)
          unfold replaceRow
          rw [if_neg hne])
      rw [hleft, List.append_assoc, List.singleton_append]

theorem countKey_eq_one {t : List WaitMetricRow} {k : WaitKey}
    (hwf : (t.map rowKey).Nodup) (hk : k ∈ t.map rowKey) : countKey t k = 1 := by
  induction t with
  | nil => cases hk
  | cons x rest ih =>
    rw [List.map_cons, List.nodup_cons] at hwf
    rw [List.map_cons] at hk
    unfold countKey
    rw [List.filter_cons]
    by_cases hx : rowKey x = k
    · rw [if_pos (by simp [hx])]
      have hnone : (rest.filter (fun y => decide (rowKey y = k))).length = 0 := by
        rw [List.length_eq_zero, List.filter_eq_nil_iff]
        intro y hy
        simp only [decide_eq_true_eq]
        intro he
        apply hwf.1
        rw [hx, ← he]
        exact List.mem_map_of_mem rowKey hy
      rw [List.length_cons, hnone]
    · rw [if_neg (by simp [hx])]
      rcases List.mem_cons.mp hk with h1 | h2
      · exact absurd h1.symm hx
      · exact ih hwf.2 h2

theorem filter_key_map_patch (rs : List WaitMetricRow) (t : List WaitMetricRow) (k : WaitKey) :
    (t.map (patchRow rs)).filter (fun y => decide (rowKey y = k)) =
      (t.filter (fun y => decide (rowKey y = k))).map (patchRow rs) := by
  induction t with
  | nil => rfl
  | cons x rest ih =>
    rw [List.map_cons, List.filter_cons, List.filter_cons]
    by_cases hx : rowKey x = k
    · rw [if_pos (by simp [rowKey_patchRow, hx]), if_pos (by simp [hx]), List.map_cons, ih]
    · rw [if_neg (by simp [rowKey_patchRow, hx]), if_neg (by simp [hx]), ih]

theorem keys_upsert (t rs : List WaitMetricRow) :
    (upsert_wait_metrics t rs).map rowKey =
      t.map rowKey ++ (freshRows (t.map rowKey) rs).map rowKey := by
  rw [upsert_normal_form, List.map_append, List.map_map]
  congr 1
  exact List.map_congr_left (fun x _ => rowKey_patchRow rs x)

/-- Claim C1 counterexample: a two-record batch — one statement — whose
records both carry the already-stored identity (P1, 101, day 100) raises
the database's cardinality violation instead of upserting; the run rolls
back and the stored row keeps its old measurements, although the batch's
last writer of that identity carries different values. So the claim fails
at this input: no last-write-wins within such a run. -/
theorem upsert_duplicate_identity_counterexample :
    insert_on_conflict [mkRec "P1" "101" 100 (.val 5) (.val 10) (.val 1)]
      [mkRec "P1" "101" 100 (.val 7) (.val 20) (.val 2),
       mkRec "P1" "101" 100 (.val 9) (.val 30) (.val 3)] = none ∧
    upsert_run_pg [mkRec "P1" "101" 100 (.val 5) (.val 10) (.val 1)]
      [mkRec "P1" "101" 100 (.val 7) (.val 20) (.val 2),
       mkRec "P1" "101" 100 (.val 9) (.val 30) (.val 3)] =
      ([mkRec "P1" "101" 100 (.val 5) (.val 10) (.val 1)], false) ∧
    lastMatch [mkRec "P1" "101" 100 (.val 7) (.val 20) (.val 2),
        mkRec "P1" "101" 100 (.val 9) (.val 30) (.val 3)]
      (rowKey (mkRec "P1" "101" 100 (.val 9) (.val 30) (.val 3))) =
      some (mkRec "P1" "101" 100 (.val 9) (.val 30) (.val 3)) ∧
    (mkRec "P1" "101" 100 (.val 5) (.val 10) (.val 1)).median_weeks ≠
      (mkRec "P1" "101" 100 (.val 9) (.val 30) (.val 3)).median_weeks := by
  exact ⟨by decide, by decide, by decide, by decide⟩

/-- Claim C1 (amended): provided the run's records carry pairwise distinct
identity triples — without which the multi-row ON CONFLICT statement
raises its cardinality violation and the run rolls back — the statement
succeeds with exactly the sequential upsert's effect, and on a stored
state whose identities are unique (the table's primary key) a run whose
last writer of an already-stored identity is the record r leaves exactly
one stored row for that identity, carrying r's three measurement values. -/
theorem upsert_last_write_wins (t rs : List WaitMetricRow) (r : WaitMetricRow)
    (hwf : (t.map rowKey).Nodup)
    (hdistinct : (rs.map rowKey).Nodup)
    (hkey : rowKey r ∈ t.map rowKey)
    (hlast : lastMatch rs (rowKey r) = some r) :
    insert_on_conflict t rs = some (upsert_wait_metrics t rs) ∧
    countKey (upsert_wait_metrics t rs) (rowKey r) = 1 ∧
    ∀ x ∈ upsert_wait_metrics t rs, rowKey x = rowKey r →
      x.median_weeks = r.median_weeks ∧ x.pct_over_18w = r.pct_over_18w ∧
      x.pct_over_52w = r.pct_over_52w := by
  refine ⟨?_, ?_, ?_⟩
  · unfold insert_on_conflict
    rw [if_pos hdistinct]
    rfl
  · unfold countKey
    rw [upsert_normal_form, List.filter_append]
    have hfresh : (freshRows (t.map rowKey) rs).filter
        (fun y => decide (rowKey y = rowKey r)) = [] := by
      rw [List.filter_eq_nil_iff]
      intro y hy
      simp only [decide_eq_true_eq]
      intro he
      exact (freshRows_key_notin hy) (he ▸ hkey)
    rw [hfresh, List.append_nil, filter_key_map_patch, List.length_map]
    exact countKey_eq_one hwf hkey
  · intro x hx hxk
    rw [upsert_normal_form] at hx
    rcases List.mem_append.mp hx with hm | hf
    · obtain ⟨y, hy, rfl⟩ := List.mem_map.mp hm
      have hyk : rowKey y = rowKey r := by
        rw [← rowKey_patchRow rs y]
        exact hxk
      have hlm : lastMatch rs (rowKey y) = some r := by
        rw [hyk]
        exact hlast
      rw [patchRow_of_lastMatch_some hlm]
      exact ⟨rfl, rfl, rfl⟩
    · exact absurd (by rw [hxk]; exact hkey) (freshRows_key_notin hf)

/-- Witness for the amended C1: re-ingesting the identity (P1, 101,
day 100) with new measurement values, in a run of pairwise distinct
identities, succeeds as one statement and leaves exactly one row for it. -/
theorem upsert_last_write_wins_witness :
    insert_on_conflict [mkRec "P1" "101" 100 (.val 5) (.val 10) (.val 1)]
      [mkRec "P1" "101" 100 (.val 7) (.val 20) (.val 2)] =
      some (upsert_wait_metrics [mkRec "P1" "101" 100 (.val 5) (.val 10) (.val 1)]
        [mkRec "P1" "101" 100 (.val 7) (.val 20) (.val 2)]) ∧
    countKey (upsert_wait_metrics [mkRec "P1" "101" 100 (.val 5) (.val 10) (.val 1)]
        [mkRec "P1" "101" 100 (.val 7) (.val 20) (.val 2)])
      (rowKey (mkRec "P1" "101" 100 (.val 7) (.val 20) (.val 2))) = 1 :=
  ⟨(upsert_last_write_wins [mkRec "P1" "101" 100 (.val 5) (.val 10) (.val 1)]
      [mkRec "P1" "101" 100 (.val 7) (.val 20) (.val 2)]
      (mkRec "P1" "101" 100 (.val 7) (.val 20) (.val 2))
      (by decide) (by decide) (by decide) (by decide)).1,
   (upsert_last_write_wins [mkRec "P1" "101" 100 (.val 5) (.val 10) (.val 1)]
      [mkRec "P1" "101" 100 (.val 7) (.val 20) (.val 2)]
      (mkRec "P1" "101" 100 (.val 7) (.val 20) (.val 2))
      (by decide) (by decide) (by decide) (by decide)).2.1⟩

/-- Claim C2: reconciliation is idempotent — running an identical record
sequence a second time reproduces exactly the table of the first run, so
row count and content are unchanged. -/
theorem upsert_idempotent (t rs : List WaitMetricRow) :
    upsert_wait_metrics (upsert_wait_metrics t rs) rs = upsert_wait_metrics t rs := by
  have hmem : ∀ x ∈ upsert_wait_metrics t rs, patchRow rs x = x := by
    intro x hx
    rw [upsert_normal_form] at hx
    rcases List.mem_append.mp hx with hm | hf
    · obtain ⟨y, hy, rfl⟩ := List.mem_map.mp hm
      exact patchRow_idem rs y
    · exact freshRows_fixed hf
  have hcov : ∀ r ∈ rs, rowKey r ∈ (upsert_wait_metrics t rs).map rowKey := by
    intro r hr
    rw [keys_upsert]
    rcases @freshRows_keys_cover (t.map rowKey) rs r hr with h1 | h1
    · exact List.mem_append.mpr (Or.inl h1)
    · exact List.mem_append.mpr (Or.inr h1)
  conv_lhs => rw [upsert_normal_form]
  rw [freshRows_nil_of_covered hcov, List.append_nil]
  exact (List.map_congr_left (fun x hx => hmem x hx)).trans (List.map_id _)

/-- Witness for C2 at a concrete table and run. -/
theorem upsert_idempotent_witness :
    upsert_wait_metrics (upsert_wait_metrics [mkRec "P2" "101" 100 (.val 3) (.val 4) (.val 0)]
        [mkRec "P1" "110" 100 (.val 7) (.val 20) (.val 2)])
      [mkRec "P1" "110" 100 (.val 7) (.val 20) (.val 2)] =
    upsert_wait_metrics [mkRec "P2" "101" 100 (.val 3) (.val 4) (.val 0)]
      [mkRec "P1" "110" 100 (.val 7) (.val 20) (.val 2)] :=
  upsert_idempotent [mkRec "P2" "101" 100 (.val 3) (.val 4) (.val 0)]
    [mkRec "P1" "110" 100 (.val 7) (.val 20) (.val 2)]

/-- Claim C3: a successful run never deletes stored rows and leaves every
stored row whose identity does not occur in the input completely unchanged:
the row itself (all six columns) is still present, every stored identity
still has a row, and the row count never decreases. -/
theorem upsert_frame (t rs : List WaitMetricRow) :
    (∀ x ∈ t, (∀ r ∈ rs, rowKey r ≠ rowKey x) → x ∈ upsert_wait_metrics t rs) ∧
    (∀ x ∈ t, ∃ y ∈ upsert_wait_metrics t rs, rowKey y = rowKey x) ∧
    t.length ≤ (upsert_wait_metrics t rs).length := by
  refine ⟨?_, ?_, ?_⟩
  · intro x hx hno
    rw [upsert_normal_form]
    refine List.mem_append.mpr (Or.inl ?_)
    exact List.mem_map.mpr ⟨x, hx, patchRow_of_no_match hno⟩
  · intro x hx
    rw [upsert_normal_form]
    exact ⟨patchRow rs x, List.mem_append.mpr (Or.inl (List.mem_map_of_mem _ hx)),
      rowKey_patchRow rs x⟩
  · rw [upsert_normal_form, List.length_append, List.length_map]
    exact Nat.le_add_right _ _

/-- Witness for C3: a stored row whose identity the run does not touch is
still present, unchanged, after the run. -/
theorem upsert_frame_witness :
    mkRec "P2" "101" 100 (.val 3) (.val 4) (.val 0) ∈
      upsert_wait_metrics [mkRec "P2" "101" 100 (.val 3) (.val 4) (.val 0)]
        [mkRec "P1" "101" 100 (.val 7) (.val 20) (.val 2)] :=
  (upsert_frame [mkRec "P2" "101" 100 (.val 3) (.val 4) (.val 0)]
      [mkRec "P1" "101" 100 (.val 7) (.val 20) (.val 2)]).1
    (mkRec "P2" "101" 100 (.val 3) (.val 4) (.val 0)) (by decide) (by decide)

theorem execValues_committed (rs : List WaitMetricRow) (failAt : Option Nat) :
    ∀ (c : PgConn) (idx : Nat), (execValues c rs failAt idx).1.committed = c.committed := by
  induction rs with
  | nil =>
    intro c idx
    rfl
  | cons r rest ih =>
    intro c idx
    unfold execValues
    by_cases hf : failAt = some idx
    · rw [if_pos hf]
    · rw [if_neg hf]
      exact ih _ _

theorem execValues_ok_txn (rs : List WaitMetricRow) (failAt : Option Nat) :
    ∀ (c : PgConn) (idx : Nat), (execValues c rs failAt idx).2 = true →
      (execValues c rs failAt idx).1.txn = rs.foldl upsertOne c.txn := by
  induction rs with
  | nil =>
    intro c idx _
    rfl
  | cons r rest ih =>
    intro c idx h
    unfold execValues at h ⊢
    by_cases hf : failAt = some idx
    · rw [if_pos hf] at h
      cases h
    · rw [if_neg hf] at h ⊢
      rw [List.foldl_cons]
      exact ih _ _ h

/-- Claim C4: the reconciliation run is atomic: whatever the failure point
(none, any statement of the batch, or the commit itself), the run either
succeeds with the effect of every record visible, or fails with the table
exactly as it was before the run. -/
theorem upsert_run_atomic (t rs : List WaitMetricRow) (failAt : Option Nat) :
    upsert_run t rs failAt = (upsert_wait_metrics t rs, true) ∨
    upsert_run t rs failAt = (t, false) := by
  unfold upsert_run
  by_cases he : rs.isEmpty
  · left
    rw [if_pos he, List.isEmpty_iff.mp he, upsert_nil]
  · rw [if_neg he]
    by_cases hok : (execValues { committed := t, txn := t } rs failAt 0).2 = true
    · by_cases hc : failAt = some rs.length
      · right
        rw [if_neg (by simp [hok, hc])]
        rw [execValues_committed]
      · left
        rw [if_pos (by simp [hok, hc])]
        rw [execValues_ok_txn rs failAt { committed := t, txn := t } 0 hok]
        rfl
    · right
      rw [Bool.not_eq_true] at hok
      rw [if_neg (by simp [hok])]
      rw [execValues_committed]

/-- Witness for C4: a run of two records whose second statement raises
leaves the table untouched, while the same run without failure commits both
records. -/
theorem upsert_run_atomic_witness :
    upsert_run [mkRec "P1" "101" 100 (.val 5) (.val 10) (.val 1)]
      [mkRec "P1" "101" 100 (.val 7) (.val 20) (.val 2),
       mkRec "P3" "101" 100 (.val 9) (.val 30) (.val 3)] (some 1) =
      (upsert_wait_metrics [mkRec "P1" "101" 100 (.val 5) (.val 10) (.val 1)]
        [mkRec "P1" "101" 100 (.val 7) (.val 20) (.val 2),
         mkRec "P3" "101" 100 (.val 9) (.val 30) (.val 3)], true) ∨
    upsert_run [mkRec "P1" "101" 100 (.val 5) (.val 10) (.val 1)]
      [mkRec "P1" "101" 100 (.val 7) (.val 20) (.val 2),
       mkRec "P3" "101" 100 (.val 9) (.val 30) (.val 3)] (some 1) =
      ([mkRec "P1" "101" 100 (.val 5) (.val 10) (.val 1)], false) :=
  upsert_run_atomic [mkRec "P1" "101" 100 (.val 5) (.val 10) (.val 1)]
    [mkRec "P1" "101" 100 (.val 7) (.val 20) (.val 2),
     mkRec "P3" "101" 100 (.val 9) (.val 30) (.val 3)] (some 1)

end WLMDS
